import Mathlib

set_option autoImplicit false

/-!
Shallow embedding of the orchestration core of the smartshop-ai repository:
the per-capability circuit breaker (`app/agents/orchestrator/circuit_breaker.py`),
the orchestrator dispatch logic (`app/agents/orchestrator/orchestrator.py`),
the in-memory TTL cache (`app/core/cache.py`) and the session manager
(`app/services/session/session_manager.py`).  Wall-clock time (`time.time()`)
is modelled as an explicit rational-number parameter threaded through every
operation that reads the clock; Python dictionaries are modelled as
association lists preserving insertion order, matching CPython dict
semantics (assignment to an existing key keeps its position, a new key is
appended; `min` over the keys returns the first key attaining the minimum).
-/

namespace SmartShop

/-! ## Python dict as an insertion-ordered association list -/

/-- `d.get(k)`: first binding of `k`, if any. -/
def assocGet {β : Type} : List (String × β) → String → Option β
  | [], _ => none
  | (k', v) :: rest, k => if k' = k then some v else assocGet rest k

/-- `d[k] = v`: overwrite in place if present (keeping its position),
otherwise append at the end. -/
def assocSet {β : Type} : List (String × β) → String → β → List (String × β)
  | [], k, v => [(k, v)]
  | (k', v') :: rest, k, v =>
    if k' = k then (k, v) :: rest else (k', v') :: assocSet rest k v

/-- `del d[k]` / `d.pop(k, None)`: drop the first binding of `k`. -/
def assocErase {β : Type} : List (String × β) → String → List (String × β)
  | [], _ => []
  | (k', v') :: rest, k =>
    if k' = k then rest else (k', v') :: assocErase rest k

/-! ## Circuit breaker (`circuit_breaker.py`) -/

/-- `CircuitState` enum: CLOSED / OPEN / HALF_OPEN. -/
inductive CircuitState
  | CLOSED
  | OPEN
  | HALF_OPEN
deriving DecidableEq, Repr

open CircuitState

/-- The fields of a `CircuitBreaker` instance.  `threshold` is
`failure_threshold`, `recoveryTimeout` is `recovery_timeout`, `state` is
`_state`, `failures` is `_failures`, `lastFailure` is `_last_failure`. -/
structure CircuitBreaker where
  threshold : Nat
  recoveryTimeout : Rat
  state : CircuitState
  failures : Nat
  lastFailure : Rat
deriving DecidableEq, Repr

namespace CircuitBreaker

/-- `CircuitBreaker.__init__`: state CLOSED, failures 0, last failure 0.0. -/
def mk0 (threshold : Nat) (recoveryTimeout : Rat) : CircuitBreaker :=
  { threshold := threshold, recoveryTimeout := recoveryTimeout,
    state := CLOSED, failures := 0, lastFailure := 0 }

/-- The `state` property: when the stored state is OPEN and more than
`recovery_timeout` has elapsed since the last failure, lazily transition to
HALF_OPEN.  Returns the value read together with the (possibly mutated)
breaker. -/
def readState (b : CircuitBreaker) (now : Rat) : CircuitState × CircuitBreaker :=
  if b.state = OPEN ∧ now - b.lastFailure > b.recoveryTimeout then
    (HALF_OPEN, { b with state := HALF_OPEN })
  else
    (b.state, b)

/-- `is_available()`: `self.state != CircuitState.OPEN` (reading the
property, hence possibly transitioning OPEN → HALF_OPEN). -/
def isAvailable (b : CircuitBreaker) (now : Rat) : Bool × CircuitBreaker :=
  let p := readState b now
  (p.1 ≠ OPEN, p.2)

/-- `record_success()`: state := CLOSED, failures := 0. -/
def recordSuccess (b : CircuitBreaker) : CircuitBreaker :=
  { b with state := CLOSED, failures := 0 }

/-- `record_failure()`: increment failures, stamp `last_failure := now`, and
move to OPEN when `failures >= threshold` or the stored state is HALF_OPEN. -/
def recordFailure (b : CircuitBreaker) (now : Rat) : CircuitBreaker :=
  { b with
    failures := b.failures + 1
    lastFailure := now
    state :=
      if b.failures + 1 ≥ b.threshold ∨ b.state = HALF_OPEN then OPEN
      else b.state }

/-- One externally invocable breaker operation, with the clock value at
which it runs. -/
inductive Op
  | success
  | failure (now : Rat)
  | read (now : Rat)
deriving DecidableEq, Repr

/-- Apply one operation (for `read`, keep only the state side effect). -/
def applyOp (b : CircuitBreaker) : Op → CircuitBreaker
  | .success => b.recordSuccess
  | .failure now => b.recordFailure now
  | .read now => (b.readState now).2

/-- Apply a sequence of operations left to right. -/
def applyOps (b : CircuitBreaker) (ops : List Op) : CircuitBreaker :=
  ops.foldl applyOp b

/-- Apply `record_failure` at each time in the list, left to right. -/
def applyFailures (b : CircuitBreaker) (times : List Rat) : CircuitBreaker :=
  times.foldl recordFailure b

end CircuitBreaker

/-! ## In-memory TTL cache (`cache.py`, class `TTLCache`) -/

/-- `TTLCache`: `store` is `_store` (key → (value, expires_at), in
insertion order), `defaultTtl` is `_default_ttl`, `maxSize` is `_max_size`. -/
structure TTLCache (α : Type) where
  store : List (String × α × Rat)
  defaultTtl : Rat
  maxSize : Nat
deriving DecidableEq

namespace TTLCache

/-- `TTLCache.__init__(default_ttl, max_size)`. -/
def mk0 (α : Type) (defaultTtl : Rat) (maxSize : Nat) : TTLCache α :=
  { store := [], defaultTtl := defaultTtl, maxSize := maxSize }

/-- `min(self._store, key=lambda k: self._store[k][1])`: the first entry
(in insertion order) with minimal `expires_at`; `none` on an empty store
(where CPython's `min` raises `ValueError`). -/
def minByExpiry {α : Type} (store : List (String × α × Rat)) :
    Option (String × α × Rat) :=
  store.foldl
    (fun acc e =>
      match acc with
      | none => some e
      | some m => if e.2.2 < m.2.2 then some e else some m)
    none

/-- `get(key)`: `None` if missing; if present but `time.time() > expires_at`,
delete the entry and return `None`; otherwise return the value.  The second
component is the cache after the call. -/
def get {α : Type} (c : TTLCache α) (now : Rat) (key : String) :
    Option α × TTLCache α :=
  match assocGet c.store key with
  | none => (none, c)
  | some (v, expiresAt) =>
    if now > expiresAt then (none, { c with store := assocErase c.store key })
    else (some v, c)

/-- `ttl = ttl or self._default_ttl` (Python truthiness: `None` and `0`
both fall back to the default). -/
def effTtl {α : Type} (c : TTLCache α) (ttl : Option Rat) : Rat :=
  match ttl with
  | none => c.defaultTtl
  | some q => if q = 0 then c.defaultTtl else q

/-- `set(key, value, ttl)`: `expires_at = time.time() + ttl`.  If the
store already holds at least `max_size` entries and the key is new, evict
the entry with the smallest `expires_at` first; on an empty store that
`min` raises `ValueError`, modelled as `Except.error`. -/
def set {α : Type} (c : TTLCache α) (now : Rat) (key : String) (value : α)
    (ttl : Option Rat) : Except String (TTLCache α) :=
  if c.store.length ≥ c.maxSize ∧ (assocGet c.store key).isNone then
    match minByExpiry c.store with
    | none => .error "ValueError: min() arg is an empty sequence"
    | some oldest =>
      .ok { c with
        store := assocSet (assocErase c.store oldest.1) key (value, now + effTtl c ttl) }
  else
    .ok { c with store := assocSet c.store key (value, now + effTtl c ttl) }

end TTLCache

/-! ## Session manager (`session_manager.py`) -/

/-- `ChatMessage`: role, content, timestamp. -/
structure ChatMessage where
  role : String
  content : String
  timestamp : Rat
deriving DecidableEq, Repr

/-- `MAX_PAIRS = 10` — keep the last 10 user/assistant turns = 20 messages. -/
def MAX_PAIRS : Nat := 10

/-- `append_turn`: append the user message then the assistant message, then
keep only the last `MAX_PAIRS * 2` messages when the list is longer.
The two `time.time()` stamps are the explicit arguments `tu`, `ta`. -/
def appendTurn (messages : List ChatMessage) (userMsg assistantMsg : String)
    (tu ta : Rat) : List ChatMessage :=
  if (messages ++ [ChatMessage.mk "user" userMsg tu,
      ChatMessage.mk "assistant" assistantMsg ta]).length > MAX_PAIRS * 2 then
    (messages ++ [ChatMessage.mk "user" userMsg tu,
      ChatMessage.mk "assistant" assistantMsg ta]).drop
      ((messages ++ [ChatMessage.mk "user" userMsg tu,
        ChatMessage.mk "assistant" assistantMsg ta]).length - MAX_PAIRS * 2)
  else
    messages ++ [ChatMessage.mk "user" userMsg tu,
      ChatMessage.mk "assistant" assistantMsg ta]

/-- One turn: user content, assistant content, and the two timestamps. -/
structure Turn where
  userMsg : String
  assistantMsg : String
  tu : Rat
  ta : Rat
deriving DecidableEq, Repr

/-- A sequence of `append_turn` calls, left to right. -/
def appendTurns (messages : List ChatMessage) (turns : List Turn) :
    List ChatMessage :=
  turns.foldl (fun ms t => appendTurn ms t.userMsg t.assistantMsg t.tu t.ta) messages

/-- The full untruncated transcript of a sequence of turns: the two
messages of each turn, in order. -/
def turnMessages (turns : List Turn) : List ChatMessage :=
  (turns.map fun t =>
    [⟨"user", t.userMsg, t.tu⟩, ⟨"assistant", t.assistantMsg, t.ta⟩]).flatten

/-! ## Orchestrator (`orchestrator.py`) with its data model -/

/-- A context value (Python `Any` as far as the orchestrator inspects it). -/
inductive CtxVal where
  | str (s : String)
  | num (q : Rat)
  | boolV (b : Bool)
  | dict (d : List (String × CtxVal))

/-- A request context: Python `dict[str, Any]`. -/
abbrev Ctx := List (String × CtxVal)

/-- `IntentType` enum of `app/schemas/chat.py`. -/
inductive IntentType
  | RECOMMENDATION
  | COMPARISON
  | REVIEW
  | POLICY
  | PRICE
  | GENERAL
deriving DecidableEq, Repr

/-- `IntentType.value` (the `str` payload of the enum member). -/
def IntentType.value : IntentType → String
  | .RECOMMENDATION => "recommendation"
  | .COMPARISON => "comparison"
  | .REVIEW => "review"
  | .POLICY => "policy"
  | .PRICE => "price"
  | .GENERAL => "general"

/-- `_IntentResult` of `intent_classifier.py`. -/
structure IntentResult where
  intent : IntentType
  confidence : Rat
  productName : Option String
  category : Option String
  maxPrice : Option Rat
  minPrice : Option Rat
  reasoning : String

/-- `AgentResponse` of `app/agents/base.py`. -/
structure AgentResponse where
  success : Bool
  data : List (String × CtxVal)
  error : Option String
  metadata : List (String × CtxVal)

/-- What one call `agent.process(query, context)` does: return a response
or raise. -/
inductive AgentOutcome where
  | ok (response : AgentResponse)
  | exn (msg : String)

/-- A capability handle: its `process` method. -/
def Agent : Type := String → Ctx → AgentOutcome

/-- `self._registry.get(k)`: Python returns `None` both when the key is
missing and when the stored value is `None`. -/
def regGet (registry : List (String × Option Agent)) (k : String) : Option Agent :=
  match assocGet registry k with
  | none => none
  | some v => v

/-- Python truthiness of an optional string (`if intent_result.category:`). -/
def pyTruthyStr : Option String → Bool
  | none => false
  | some s => s ≠ ""

/-- Python truthiness of an optional number (`if intent_result.max_price:`). -/
def pyTruthyRat : Option Rat → Bool
  | none => false
  | some q => q ≠ 0

/-- The `hints` dict built in `handle`: `category`, then `max_price`, then
`min_price`, each added only when truthy. -/
def buildHints (ir : IntentResult) : List (String × CtxVal) :=
  (if pyTruthyStr ir.category then
    [("category", CtxVal.str (ir.category.getD ""))] else [])
  ++ (if pyTruthyRat ir.maxPrice then
    [("max_price", CtxVal.num (ir.maxPrice.getD 0))] else [])
  ++ (if pyTruthyRat ir.minPrice then
    [("min_price", CtxVal.num (ir.minPrice.getD 0))] else [])

/-- `ctx = {**context}` enriched with `structured_hints` when the hints
dict is nonempty. -/
def enrichCtx (context : Ctx) (ir : IntentResult) : Ctx :=
  let hints := buildHints ir
  if hints.isEmpty then context
  else assocSet context "structured_hints" (CtxVal.dict hints)

/-- Steps 2–3 of `handle`: the dispatch key and the enriched context;
`"comparison"` routes to `"recommendation"` and sets `compare_mode=True`. -/
def dispatchKeyCtx (context : Ctx) (ir : IntentResult) : String × Ctx :=
  let ctx := enrichCtx context ir
  if ir.intent.value = "comparison" then
    ("recommendation", assocSet ctx "compare_mode" (CtxVal.boolV true))
  else
    (ir.intent.value, ctx)

/-- The orchestrator's fields: `_registry` (values may be Python `None`),
the classifier (modelled as the function it computes; `classify` never
raises), and `_breakers`. -/
structure Orchestrator where
  registry : List (String × Option Agent)
  classify : String → IntentResult
  breakers : List (String × CircuitBreaker)

/-- `Orchestrator.__init__`: one breaker per registry key, with the
default threshold 3 and recovery timeout 30. -/
def Orchestrator.mk0 (registry : List (String × Option Agent))
    (classify : String → IntentResult) : Orchestrator :=
  { registry := registry, classify := classify,
    breakers := registry.map fun p => (p.1, CircuitBreaker.mk0 3 30) }

/-- What `handle` returns: a normal Python return (response plus the
intent result), or an exception propagating to the caller. -/
inductive HandleOutcome where
  | ok (response : AgentResponse) (intent : IntentResult)
  | uncaught (msg : String)

/-- The observable effect of one `handle` call: its outcome, the list of
`process` invocations actually made (capability key and the context
argument passed, in order), and the breaker map afterwards. -/
structure HandleResult where
  outcome : HandleOutcome
  trace : List (String × Ctx)
  breakers : List (String × CircuitBreaker)

/-- The agent/breaker pair `handle` settles on before the `try` block,
together with the breaker map after any `is_available` side effect;
`keyError` is the uncaught `KeyError` from `self._registry["general"]` or
`self._breakers["general"]` when the reroute target is missing. -/
inductive Resolution where
  | proceed (agentKey : String) (agent : Option Agent)
      (breaker : Option CircuitBreaker) (bks : List (String × CircuitBreaker))
  | keyError (bks : List (String × CircuitBreaker))

/-- The reroute branch: `agent_key = "general"`,
`agent = self._registry["general"]`, `breaker = self._breakers["general"]`
(both plain indexings, raising `KeyError` when missing). -/
def rerouteResolve (o : Orchestrator) (bks : List (String × CircuitBreaker)) :
    Resolution :=
  match assocGet o.registry "general" with
  | none => .keyError bks
  | some gAgent =>
    match assocGet bks "general" with
    | none => .keyError bks
    | some gBr => .proceed "general" gAgent (some gBr) bks

/-- Step 4 of `handle`: look up the agent and breaker; reroute when
`agent is None or (breaker and not breaker.is_available())`, with Python's
short-circuit evaluation (no `is_available` call when the agent is
missing). -/
def resolve (o : Orchestrator) (now : Rat) (agentKey : String) : Resolution :=
  match regGet o.registry agentKey with
  | none => rerouteResolve o o.breakers
  | some a =>
    match assocGet o.breakers agentKey with
    | none => .proceed agentKey (some a) none o.breakers
    | some br =>
      if (br.isAvailable now).1 then
        .proceed agentKey (some a) (some (br.isAvailable now).2)
          (assocSet o.breakers agentKey (br.isAvailable now).2)
      else
        rerouteResolve o (assocSet o.breakers agentKey (br.isAvailable now).2)

/-- The `try` block of `handle`: invoke `agent.process(query, ctx)` (an
`AttributeError` when the agent is Python `None`), record the outcome on
the breaker; on a raised exception record a failure and fall back to
`self._registry.get("general")`, calling it with the caller's original
`context`; when that too is absent, synthesize
`AgentResponse(success=False, data={}, error=str(exc))`. -/
def invoke (o : Orchestrator) (bks : List (String × CircuitBreaker))
    (agent : Option Agent) (agentKey : String)
    (breaker : Option CircuitBreaker) (now : Rat) (query : String)
    (ctx context : Ctx) (ir : IntentResult) : HandleResult :=
  let attemptTrace : List (String × Ctx) :=
    match agent with
    | none => []
    | some _ => [(agentKey, ctx)]
  let attempt : AgentOutcome :=
    match agent with
    | none => .exn "AttributeError: NoneType object has no attribute process"
    | some a => a query ctx
  match attempt with
  | .ok response =>
    let bks' := match breaker with
      | none => bks
      | some br =>
        assocSet bks agentKey
          (if response.success then br.recordSuccess else br.recordFailure now)
    ⟨.ok response ir, attemptTrace, bks'⟩
  | .exn msg =>
    let bks' := match breaker with
      | none => bks
      | some br => assocSet bks agentKey (br.recordFailure now)
    match regGet o.registry "general" with
    | some fb =>
      match fb query context with
      | .ok r => ⟨.ok r ir, attemptTrace ++ [("general", context)], bks'⟩
      | .exn m2 => ⟨.uncaught m2, attemptTrace ++ [("general", context)], bks'⟩
    | none =>
      ⟨.ok ⟨false, [], some msg, []⟩ ir, attemptTrace, bks'⟩

/-- `Orchestrator.handle(query, context)`: classify, enrich, resolve the
capability, run the `try` block. -/
def handle (o : Orchestrator) (now : Rat) (query : String) (context : Ctx) :
    HandleResult :=
  let ir := o.classify query
  let kc := dispatchKeyCtx context ir
  match resolve o now kc.1 with
  | .keyError bks => ⟨.uncaught "KeyError: general", [], bks⟩
  | .proceed key agent breaker bks =>
    invoke o bks agent key breaker now query kc.2 context ir

/-! ### Concrete fixtures used to instantiate the orchestrator claims -/

/-- An agent whose `process` always returns a successful response. -/
def agentOkTrue : Agent := fun _ _ => .ok ⟨true, [], none, []⟩

/-- An agent whose `process` returns `success=False` with an error
message (an expected failure, reported without raising). -/
def agentReportsFailure : Agent := fun _ _ => .ok ⟨false, [], some "boom", []⟩

/-- An agent whose `process` always raises. -/
def agentRaises : Agent := fun _ _ => .exn "kaboom"

/-- A classifier returning a fixed intent with no extracted hints. -/
def constClassifier (it : IntentType) : String → IntentResult :=
  fun _ => ⟨it, 1, none, none, none, none, "fixed"⟩

/-- Registry where the "review" capability reports failure and "general"
is present and healthy. -/
def oReportedFailure : Orchestrator :=
  Orchestrator.mk0 [("review", some agentReportsFailure), ("general", some agentOkTrue)]
    (constClassifier .REVIEW)

/-- Registry where both "review" and "general" are present and healthy. -/
def oReviewOk : Orchestrator :=
  Orchestrator.mk0 [("review", some agentOkTrue), ("general", some agentOkTrue)]
    (constClassifier .REVIEW)

/-- Registry whose only capability, "general", raises. -/
def oGeneralRaises : Orchestrator :=
  Orchestrator.mk0 [("general", some agentRaises)] (constClassifier .GENERAL)

/-- Comparison queries with "recommendation" registered as Python `None`. -/
def oComparisonNoRec : Orchestrator :=
  Orchestrator.mk0 [("recommendation", none), ("general", some agentOkTrue)]
    (constClassifier .COMPARISON)

/-- Comparison queries with a live "recommendation" capability. -/
def oComparisonRec : Orchestrator :=
  Orchestrator.mk0 [("recommendation", some agentOkTrue), ("general", some agentOkTrue)]
    (constClassifier .COMPARISON)

/-- Registry where "review" raises and "general" is present and healthy. -/
def oReviewRaises : Orchestrator :=
  Orchestrator.mk0 [("review", some agentRaises), ("general", some agentOkTrue)]
    (constClassifier .REVIEW)

/-- Registry where "review" is registered as Python `None`. -/
def oReviewAbsent : Orchestrator :=
  Orchestrator.mk0 [("review", none), ("general", some agentOkTrue)]
    (constClassifier .REVIEW)

end SmartShop

namespace SmartShop

open CircuitBreaker CircuitState

/-! ## Circuit-breaker lemmas -/

theorem recordFailure_failures (b : CircuitBreaker) (now : Rat) :
    (b.recordFailure now).failures = b.failures + 1 := rfl

theorem recordFailure_threshold (b : CircuitBreaker) (now : Rat) :
    (b.recordFailure now).threshold = b.threshold := rfl

theorem applyOp_threshold (b : CircuitBreaker) (op : Op) :
    (applyOp b op).threshold = b.threshold := by
  cases op with
  | success => rfl
  | failure now => rfl
  | read now =>
    simp only [applyOp, readState]
    split <;> rfl

theorem applyFailures_failures (b : CircuitBreaker) (times : List Rat) :
    (b.applyFailures times).failures = b.failures + times.length := by
  induction times generalizing b with
  | nil => simp [applyFailures]
  | cons t ts ih =>
    simp only [applyFailures, List.foldl_cons] at *
    rw [ih]
    simp [recordFailure_failures]
    omega

/-- A nonempty run of failures whose length pushes the count to the
threshold ends in OPEN. -/
theorem applyFailures_open (times : List Rat) :
    ∀ b : CircuitBreaker, times ≠ [] →
      b.failures + times.length ≥ b.threshold →
      (b.applyFailures times).state = OPEN := by
  induction times with
  | nil => intro b h; exact absurd rfl h
  | cons t ts ih =>
    intro b _ hcount
    cases ts with
    | nil =>
      simp only [applyFailures, List.foldl_cons, List.foldl_nil]
      simp only [List.length_cons, List.length_nil] at hcount
      have h1 : b.failures + 1 ≥ b.threshold := by omega
      simp [recordFailure, h1]
    | cons t' ts' =>
      simp only [applyFailures, List.foldl_cons]
      have h1 : (b.recordFailure t).failures + (t' :: ts').length ≥
          (b.recordFailure t).threshold := by
        rw [recordFailure_failures, recordFailure_threshold]
        simp only [List.length_cons] at hcount ⊢
        omega
      have h2 := ih (b.recordFailure t) (by simp) h1
      simpa [applyFailures] using h2

/-- The invariant that actually holds of a CLOSED breaker: the failure
count is strictly below the threshold (not necessarily zero). -/
def ClosedInv (b : CircuitBreaker) : Prop :=
  b.state = CLOSED → b.failures < b.threshold

theorem applyOp_closedInv (b : CircuitBreaker) (op : Op)
    (ht : 1 ≤ b.threshold) (h : ClosedInv b) : ClosedInv (applyOp b op) := by
  cases op with
  | success =>
    intro _
    simpa [applyOp, recordSuccess] using ht
  | failure now =>
    intro hst
    simp only [applyOp, recordFailure] at hst ⊢
    by_cases hc : b.failures + 1 ≥ b.threshold ∨ b.state = HALF_OPEN
    · simp [hc] at hst
    · have h1 : ¬(b.failures + 1 ≥ b.threshold) := fun hx => hc (Or.inl hx)
      omega
  | read now =>
    intro hst
    simp only [applyOp, readState] at hst ⊢
    by_cases hc : b.state = OPEN ∧ now - b.lastFailure > b.recoveryTimeout
    · rw [if_pos hc] at hst
      simp at hst
    · rw [if_neg hc] at hst ⊢
      exact h hst

theorem applyOps_closedInv (ops : List Op) :
    ∀ b : CircuitBreaker, 1 ≤ b.threshold → ClosedInv b →
      ClosedInv (b.applyOps ops) := by
  induction ops with
  | nil => intro b _ h; exact h
  | cons op ops ih =>
    intro b ht h
    simp only [applyOps, List.foldl_cons]
    have ht' : 1 ≤ (applyOp b op).threshold := by rw [applyOp_threshold]; exact ht
    exact ih (applyOp b op) ht' (applyOp_closedInv b op ht h)

theorem applyOps_threshold (ops : List Op) :
    ∀ b : CircuitBreaker, (b.applyOps ops).threshold = b.threshold := by
  induction ops with
  | nil => intro b; rfl
  | cons op ops ih =>
    intro b
    simp only [applyOps, List.foldl_cons]
    rw [show ops.foldl applyOp (applyOp b op) = (applyOp b op).applyOps ops from rfl,
      ih, applyOp_threshold]

/-! ## Claim C3 -/

/-- C3 counterexample: a breaker with the default threshold 3, after a
single `record_failure` from construction, has state CLOSED and
failure count 1 — so "failure_count is 0 whenever state is Closed" is
false on the code. -/
theorem closed_breaker_nonzero_failures_cex :
    ((CircuitBreaker.mk0 3 30).applyOps [.failure 1]).state = CLOSED ∧
    ((CircuitBreaker.mk0 3 30).applyOps [.failure 1]).failures = 1 := by
  decide

/-- C3 (amended): for every breaker with threshold ≥ 1 and every reachable
sequence of record_success / record_failure / state-read operations from
construction, whenever the state is CLOSED the failure count is strictly
below the threshold (it need not be 0). -/
theorem closed_failures_below_threshold (t : Nat) (rt : Rat) (ops : List Op)
    (ht : 1 ≤ t)
    (h : ((CircuitBreaker.mk0 t rt).applyOps ops).state = CLOSED) :
    ((CircuitBreaker.mk0 t rt).applyOps ops).failures < t := by
  have hinv := applyOps_closedInv ops (CircuitBreaker.mk0 t rt) ht
    (by intro _; simpa [CircuitBreaker.mk0] using ht)
  have := hinv h
  rwa [applyOps_threshold] at this

/-- Witness for C3's amended theorem at threshold 3 and one failure. -/
theorem closed_failures_below_threshold_witness :
    ((CircuitBreaker.mk0 3 30).applyOps [.failure 1]).failures < 3 :=
  closed_failures_below_threshold 3 30 [.failure 1] (by norm_num) (by decide)

/-! ## Claim C4 -/

/-- C4 counterexample: with failure threshold 0, "t consecutive
record_failure calls leave the state Open" fails — zero calls leave the
freshly constructed breaker CLOSED. -/
theorem threshold_failures_open_cex :
    ¬((CircuitBreaker.mk0 0 30).applyFailures []).state = OPEN := by
  decide

/-- C4 (amended): for every breaker with failure threshold t ≥ 1 starting
CLOSED with failure count 0, t consecutive `record_failure` calls leave
the state OPEN; and from every state, one `record_success` yields CLOSED
with failure count 0. -/
theorem threshold_failures_open_and_success_closes :
    (∀ (t : Nat) (rt : Rat) (times : List Rat), 1 ≤ t → times.length = t →
      ((CircuitBreaker.mk0 t rt).applyFailures times).state = OPEN) ∧
    (∀ b : CircuitBreaker,
      b.recordSuccess.state = CLOSED ∧ b.recordSuccess.failures = 0) := by
  constructor
  · intro t rt times ht hlen
    apply applyFailures_open
    · intro hnil
      rw [hnil] at hlen
      simp at hlen
      omega
    · simp [CircuitBreaker.mk0, hlen]
  · intro b
    exact ⟨rfl, rfl⟩

/-- Witness for C4's amended theorem: threshold 2, two failures open the
breaker; `record_success` on an OPEN breaker with 5 failures closes it. -/
theorem threshold_failures_open_and_success_closes_witness :
    ((CircuitBreaker.mk0 2 30).applyFailures [1, 2]).state = OPEN ∧
    (CircuitBreaker.mk 2 30 OPEN 5 7).recordSuccess.state = CLOSED ∧
    (CircuitBreaker.mk 2 30 OPEN 5 7).recordSuccess.failures = 0 :=
  ⟨threshold_failures_open_and_success_closes.1 2 30 [1, 2] (by norm_num) (by decide),
   threshold_failures_open_and_success_closes.2 (CircuitBreaker.mk 2 30 OPEN 5 7)⟩

/-! ## Claim C5 -/

/-- C5: once an OPEN breaker's last failure is more than
`recovery_timeout` in the past, the next state read (also via
`is_available`) yields HALF_OPEN; a state of HALF_OPEN can only be
produced by a state read (never by `record_success`/`record_failure`),
from a stored state that was already HALF_OPEN or from OPEN after the
timeout; and one `record_failure` while HALF_OPEN yields OPEN regardless
of the failure count. -/
theorem open_to_half_open_on_read_only :
    (∀ (b : CircuitBreaker) (now : Rat), b.state = OPEN →
      now - b.lastFailure > b.recoveryTimeout →
      (b.readState now).1 = HALF_OPEN ∧ (b.readState now).2.state = HALF_OPEN ∧
      (b.isAvailable now).1 = true) ∧
    (∀ (b : CircuitBreaker) (op : Op), (applyOp b op).state = HALF_OPEN →
      ∃ now, op = .read now ∧
        (b.state = HALF_OPEN ∨
          (b.state = OPEN ∧ now - b.lastFailure > b.recoveryTimeout))) ∧
    (∀ (b : CircuitBreaker) (now : Rat), b.state = HALF_OPEN →
      (b.recordFailure now).state = OPEN) := by
  refine ⟨?_, ?_, ?_⟩
  · intro b now h1 h2
    simp [readState, isAvailable, h1, h2]
  · intro b op hst
    cases op with
    | success => simp [applyOp, recordSuccess] at hst
    | failure now =>
      exfalso
      simp only [applyOp, recordFailure] at hst
      by_cases hc : b.failures + 1 ≥ b.threshold ∨ b.state = HALF_OPEN
      · simp [hc] at hst
      · rw [if_neg hc] at hst
        exact hc (Or.inr hst)
    | read now =>
      refine ⟨now, rfl, ?_⟩
      simp only [applyOp, readState] at hst
      by_cases hc : b.state = OPEN ∧ now - b.lastFailure > b.recoveryTimeout
      · exact Or.inr hc
      · rw [if_neg hc] at hst
        exact Or.inl hst
  · intro b now h
    simp [recordFailure, h]

/-- Witness for C5 at a concrete breaker: OPEN with timeout 1, last
failure at 0, read at time 2. -/
theorem open_to_half_open_on_read_only_witness :
    (((CircuitBreaker.mk 3 1 OPEN 3 0).readState 2).1 = HALF_OPEN ∧
      ((CircuitBreaker.mk 3 1 OPEN 3 0).readState 2).2.state = HALF_OPEN ∧
      ((CircuitBreaker.mk 3 1 OPEN 3 0).isAvailable 2).1 = true) ∧
    (∃ now, Op.read 2 = Op.read now ∧
      ((CircuitBreaker.mk 3 1 OPEN 3 0).state = HALF_OPEN ∨
        ((CircuitBreaker.mk 3 1 OPEN 3 0).state = OPEN ∧
          now - (CircuitBreaker.mk 3 1 OPEN 3 0).lastFailure >
            (CircuitBreaker.mk 3 1 OPEN 3 0).recoveryTimeout))) ∧
    ((CircuitBreaker.mk 3 1 HALF_OPEN 1 0).recordFailure 2).state = OPEN :=
  ⟨open_to_half_open_on_read_only.1 (CircuitBreaker.mk 3 1 OPEN 3 0) 2 (by decide)
      (by norm_num),
   open_to_half_open_on_read_only.2.1 (CircuitBreaker.mk 3 1 OPEN 3 0) (.read 2)
      (by norm_num [applyOp, readState]),
   open_to_half_open_on_read_only.2.2 (CircuitBreaker.mk 3 1 HALF_OPEN 1 0) 2 (by decide)⟩

/-! ## Association-list lemmas -/

theorem assocGet_assocSet_self {β : Type} (l : List (String × β)) (k : String) (v : β) :
    assocGet (assocSet l k v) k = some v := by
  induction l with
  | nil => simp [assocGet, assocSet]
  | cons p rest ih =>
    by_cases h : p.1 = k
    · simp [assocGet, assocSet, h]
    · simp [assocGet, assocSet, h, ih]

theorem assocGet_assocSet_ne {β : Type} (l : List (String × β)) (k k' : String) (v : β)
    (h : k' ≠ k) : assocGet (assocSet l k v) k' = assocGet l k' := by
  have hne : ¬(k = k') := fun he => h he.symm
  induction l with
  | nil => simp only [assocSet, assocGet, if_neg hne]
  | cons p rest ih =>
    by_cases hp : p.1 = k
    · have hp' : ¬(p.1 = k') := by rw [hp]; exact hne
      simp only [assocSet, if_pos hp, assocGet, if_neg hne, if_neg hp']
    · simp only [assocSet, if_neg hp, assocGet]
      by_cases hp' : p.1 = k'
      · simp [if_pos hp']
      · simp [if_neg hp', ih]

theorem assocSet_length_of_none {β : Type} (l : List (String × β)) (k : String) (v : β)
    (h : assocGet l k = none) : (assocSet l k v).length = l.length + 1 := by
  induction l with
  | nil => rfl
  | cons p rest ih =>
    simp only [assocGet] at h
    by_cases hp : p.1 = k
    · simp [hp] at h
    · simp only [assocSet, if_neg hp, List.length_cons]
      rw [ih (by simpa [hp] using h)]

theorem assocSet_length_of_some {β : Type} (l : List (String × β)) (k : String) (v w : β)
    (h : assocGet l k = some w) : (assocSet l k v).length = l.length := by
  induction l with
  | nil => simp [assocGet] at h
  | cons p rest ih =>
    simp only [assocGet] at h
    by_cases hp : p.1 = k
    · simp [assocSet, hp]
    · simp only [assocSet, if_neg hp, List.length_cons]
      rw [ih (by simpa [hp] using h)]

theorem assocGet_some_of_mem {β : Type} (l : List (String × β)) (p : String × β)
    (h : p ∈ l) : ∃ w, assocGet l p.1 = some w := by
  induction l with
  | nil => simp at h
  | cons q rest ih =>
    by_cases hq : q.1 = p.1
    · exact ⟨q.2, by simp [assocGet, hq]⟩
    · rcases List.mem_cons.mp h with he | hm
      · exact absurd (he ▸ rfl) hq
      · simpa [assocGet, hq] using ih hm

theorem assocErase_length_of_some {β : Type} (l : List (String × β)) (k : String)
    (h : ∃ w, assocGet l k = some w) :
    (assocErase l k).length + 1 = l.length := by
  induction l with
  | nil => simp [assocGet] at h
  | cons p rest ih =>
    by_cases hp : p.1 = k
    · simp [assocErase, hp]
    · obtain ⟨w, hw⟩ := h
      simp only [assocGet, if_neg hp] at hw
      simp only [assocErase, if_neg hp, List.length_cons]
      rw [← ih ⟨w, hw⟩]

theorem assocGet_assocErase_of_none {β : Type} (l : List (String × β)) (k k' : String)
    (h : assocGet l k' = none) : assocGet (assocErase l k) k' = none := by
  induction l with
  | nil => simp [assocErase, assocGet]
  | cons p rest ih =>
    simp only [assocGet] at h
    by_cases hp' : p.1 = k'
    · simp [hp'] at h
    · have h' : assocGet rest k' = none := by simpa [hp'] using h
      by_cases hp : p.1 = k
      · simpa [assocErase, hp] using h'
      · simp [assocErase, hp, assocGet, hp', ih h']

/-! ## TTLCache lemmas -/

namespace TTLCache

/-- The folding step of `minByExpiry`. -/
def minStep {α : Type} (acc : Option (String × α × Rat)) (e : String × α × Rat) :
    Option (String × α × Rat) :=
  match acc with
  | none => some e
  | some m => if e.2.2 < m.2.2 then some e else some m

theorem minByExpiry_eq_foldl {α : Type} (store : List (String × α × Rat)) :
    minByExpiry store = store.foldl minStep none := rfl

theorem foldl_minStep_some {α : Type} (l : List (String × α × Rat)) :
    ∀ (a m : String × α × Rat), l.foldl minStep (some a) = some m →
      (m = a ∨ m ∈ l) ∧ m.2.2 ≤ a.2.2 ∧ ∀ e ∈ l, m.2.2 ≤ e.2.2 := by
  induction l with
  | nil =>
    intro a m h
    simp only [List.foldl_nil, Option.some.injEq] at h
    subst h
    simp
  | cons e rest ih =>
    intro a m h
    simp only [List.foldl_cons] at h
    by_cases hc : e.2.2 < a.2.2
    · have h' : rest.foldl minStep (some e) = some m := by
        simpa [minStep, hc] using h
      obtain ⟨hmem, hle, hall⟩ := ih e m h'
      refine ⟨?_, ?_, ?_⟩
      · rcases hmem with he | hm
        · exact Or.inr (by simp [he])
        · exact Or.inr (List.mem_cons_of_mem _ hm)
      · exact le_trans hle (le_of_lt hc)
      · intro x hx
        rcases List.mem_cons.mp hx with hxe | hxr
        · exact hxe ▸ hle
        · exact hall x hxr
    · have h' : rest.foldl minStep (some a) = some m := by
        simpa [minStep, hc] using h
      obtain ⟨hmem, hle, hall⟩ := ih a m h'
      refine ⟨?_, ?_, ?_⟩
      · rcases hmem with he | hm
        · exact Or.inl he
        · exact Or.inr (List.mem_cons_of_mem _ hm)
      · exact hle
      · intro x hx
        rcases List.mem_cons.mp hx with hxe | hxr
        · exact hxe ▸ le_trans hle (not_lt.mp hc)
        · exact hall x hxr

theorem minByExpiry_spec {α : Type} (store : List (String × α × Rat))
    (m : String × α × Rat) (h : minByExpiry store = some m) :
    m ∈ store ∧ ∀ e ∈ store, m.2.2 ≤ e.2.2 := by
  cases store with
  | nil => simp [minByExpiry] at h
  | cons e rest =>
    rw [minByExpiry_eq_foldl, List.foldl_cons] at h
    have h' : rest.foldl minStep (some e) = some m := by simpa [minStep] using h
    obtain ⟨hmem, hle, hall⟩ := foldl_minStep_some rest e m h'
    refine ⟨?_, ?_⟩
    · rcases hmem with he | hm
      · exact he ▸ List.mem_cons_self e rest
      · exact List.mem_cons_of_mem _ hm
    · intro x hx
      rcases List.mem_cons.mp hx with hxe | hxr
      · exact hxe ▸ hle
      · exact hall x hxr

theorem foldl_minStep_isSome {α : Type} (l : List (String × α × Rat)) :
    ∀ a : String × α × Rat, ∃ m, l.foldl minStep (some a) = some m := by
  induction l with
  | nil => intro a; exact ⟨a, rfl⟩
  | cons e rest ih =>
    intro a
    simp only [List.foldl_cons]
    by_cases hc : e.2.2 < a.2.2
    · simpa [minStep, hc] using ih e
    · simpa [minStep, hc] using ih a

theorem minByExpiry_isSome {α : Type} (store : List (String × α × Rat))
    (h : store ≠ []) : ∃ m, minByExpiry store = some m := by
  cases store with
  | nil => exact absurd rfl h
  | cons e rest =>
    rw [minByExpiry_eq_foldl, List.foldl_cons]
    simpa [minStep] using foldl_minStep_isSome rest e

theorem set_evict_eq {α : Type} (c : TTLCache α) (now : Rat) (key : String)
    (value : α) (ttl : Option Rat) (m : String × α × Rat)
    (hcond : c.store.length ≥ c.maxSize ∧ (assocGet c.store key).isNone)
    (hm : minByExpiry c.store = some m) :
    c.set now key value ttl =
      .ok { c with
        store := assocSet (assocErase c.store m.1) key (value, now + effTtl c ttl) } := by
  unfold TTLCache.set
  rw [if_pos hcond, hm]

theorem set_min_none_eq {α : Type} (c : TTLCache α) (now : Rat) (key : String)
    (value : α) (ttl : Option Rat)
    (hcond : c.store.length ≥ c.maxSize ∧ (assocGet c.store key).isNone)
    (hm : minByExpiry c.store = none) :
    c.set now key value ttl = .error "ValueError: min() arg is an empty sequence" := by
  unfold TTLCache.set
  rw [if_pos hcond, hm]

theorem set_noevict_eq {α : Type} (c : TTLCache α) (now : Rat) (key : String)
    (value : α) (ttl : Option Rat)
    (hcond : ¬(c.store.length ≥ c.maxSize ∧ (assocGet c.store key).isNone)) :
    c.set now key value ttl =
      .ok { c with store := assocSet c.store key (value, now + effTtl c ttl) } := by
  unfold TTLCache.set
  rw [if_neg hcond]

end TTLCache

/-! ## Claim C8 -/

/-- C8: when a `set` hits a full store (at capacity, with at least one
entry) and a new key, the single evicted entry is one with minimal
`expires_at` — the resulting store is the old one with exactly that entry
removed and the new entry appended — and the size stays at capacity; and
in general, any `set` that returns normally keeps the size within
`max_size` provided it was within before. -/
theorem ttlcache_set_evicts_min_expiry :
    (∀ (α : Type) (c : TTLCache α) (now : Rat) (key : String) (value : α)
        (ttl : Option Rat),
      c.store.length = c.maxSize → assocGet c.store key = none → 1 ≤ c.maxSize →
      ∃ k0 v0 e0, (k0, v0, e0) ∈ c.store ∧
        (∀ e ∈ c.store, e0 ≤ e.2.2) ∧
        ∃ exp,
          c.set now key value ttl =
            .ok { c with store := assocSet (assocErase c.store k0) key (value, exp) } ∧
          (assocSet (assocErase c.store k0) key (value, exp)).length = c.maxSize) ∧
    (∀ (α : Type) (c : TTLCache α) (now : Rat) (key : String) (value : α)
        (ttl : Option Rat) (c' : TTLCache α),
      c.store.length ≤ c.maxSize → c.set now key value ttl = .ok c' →
      c'.store.length ≤ c.maxSize) := by
  constructor
  · intro α c now key value ttl hlen hnew hpos
    have hne : c.store ≠ [] := by
      intro h0
      rw [h0] at hlen
      simp at hlen
      omega
    obtain ⟨m, hm⟩ := TTLCache.minByExpiry_isSome c.store hne
    obtain ⟨hmem, hmin⟩ := TTLCache.minByExpiry_spec c.store m hm
    refine ⟨m.1, m.2.1, m.2.2, hmem, hmin, ?_⟩
    have hcond : c.store.length ≥ c.maxSize ∧ (assocGet c.store key).isNone := by
      constructor
      · omega
      · simp [hnew]
    refine ⟨now + TTLCache.effTtl c ttl,
      TTLCache.set_evict_eq c now key value ttl m hcond hm, ?_⟩
    have herase : (assocErase c.store m.1).length + 1 = c.store.length :=
      assocErase_length_of_some c.store m.1 (assocGet_some_of_mem c.store m hmem)
    have hnew' : assocGet (assocErase c.store m.1) key = none :=
      assocGet_assocErase_of_none c.store m.1 key hnew
    rw [assocSet_length_of_none _ _ _ hnew']
    omega
  · intro α c now key value ttl c' hle hset
    by_cases hcond : c.store.length ≥ c.maxSize ∧ (assocGet c.store key).isNone
    · rcases hm : TTLCache.minByExpiry c.store with _ | m
      · rw [TTLCache.set_min_none_eq c now key value ttl hcond hm] at hset
        simp at hset
      · rw [TTLCache.set_evict_eq c now key value ttl m hcond hm] at hset
        injection hset with h1
        have h2 : c' = { c with
            store := assocSet (assocErase c.store m.1) key
              (value, now + TTLCache.effTtl c ttl) } := h1.symm
        subst h2
        obtain ⟨hmem, _⟩ := TTLCache.minByExpiry_spec c.store m hm
        have herase : (assocErase c.store m.1).length + 1 = c.store.length :=
          assocErase_length_of_some c.store m.1 (assocGet_some_of_mem c.store m hmem)
        have hnew' : assocGet (assocErase c.store m.1) key = none :=
          assocGet_assocErase_of_none c.store m.1 key
            (Option.isNone_iff_eq_none.mp hcond.2)
        show (assocSet (assocErase c.store m.1) key
          (value, now + TTLCache.effTtl c ttl)).length ≤ c.maxSize
        rw [assocSet_length_of_none _ _ _ hnew']
        omega
    · rw [TTLCache.set_noevict_eq c now key value ttl hcond] at hset
      injection hset with h1
      have h2 : c' = { c with
          store := assocSet c.store key (value, now + TTLCache.effTtl c ttl) } := h1.symm
      subst h2
      show (assocSet c.store key (value, now + TTLCache.effTtl c ttl)).length ≤ c.maxSize
      rcases hk : assocGet c.store key with _ | w
      · have hlt : c.store.length < c.maxSize := by
          rcases not_and_or.mp hcond with h1 | h2
          · omega
          · exact absurd (by simp [hk]) h2
        rw [assocSet_length_of_none _ _ _ hk]
        omega
      · rw [assocSet_length_of_some _ _ _ w hk]
        exact hle

/-- Witness for C8: a two-entry store at capacity 2; the entry expiring
sooner ("b", inserted second) is evicted, not the first-inserted "a". -/
theorem ttlcache_set_evicts_min_expiry_witness :
    (∃ k0 v0 e0,
      (k0, v0, e0) ∈ (TTLCache.mk [("a", 1, 50), ("b", 2, 40)] 10 2 : TTLCache Nat).store ∧
      (∀ e ∈ (TTLCache.mk [("a", 1, 50), ("b", 2, 40)] 10 2 : TTLCache Nat).store,
        e0 ≤ e.2.2) ∧
      ∃ exp,
        (TTLCache.mk [("a", 1, 50), ("b", 2, 40)] 10 2 : TTLCache Nat).set 0 "c" 3 none =
          .ok { (TTLCache.mk [("a", 1, 50), ("b", 2, 40)] 10 2 : TTLCache Nat) with
            store := assocSet
              (assocErase (TTLCache.mk [("a", 1, 50), ("b", 2, 40)] 10 2 : TTLCache Nat).store k0)
              "c" (3, exp) } ∧
        (assocSet
          (assocErase (TTLCache.mk [("a", 1, 50), ("b", 2, 40)] 10 2 : TTLCache Nat).store k0)
          "c" (3, exp)).length = 2) ∧
    (TTLCache.mk [("c", 3, (0 : Rat) + 10)] 10 2 : TTLCache Nat).store.length ≤ 2 :=
  ⟨ttlcache_set_evicts_min_expiry.1 Nat (TTLCache.mk [("a", 1, 50), ("b", 2, 40)] 10 2)
      0 "c" 3 none rfl rfl (by norm_num),
   ttlcache_set_evicts_min_expiry.2 Nat
      (TTLCache.mk [] 10 2) 0 "c" 3 none
      (TTLCache.mk [("c", 3, (0 : Rat) + 10)] 10 2) (by norm_num) (by rfl)⟩

/-! ## Session-manager lemmas -/

theorem appendTurns_concat (messages : List ChatMessage) (ts : List Turn) (t : Turn) :
    appendTurns messages (ts ++ [t]) =
      appendTurn (appendTurns messages ts) t.userMsg t.assistantMsg t.tu t.ta := by
  simp [appendTurns, List.foldl_append]

theorem turnMessages_append (ts ts' : List Turn) :
    turnMessages (ts ++ ts') = turnMessages ts ++ turnMessages ts' := by
  simp [turnMessages]

theorem turnMessages_singleton (t : Turn) :
    turnMessages [t] =
      [⟨"user", t.userMsg, t.tu⟩, ⟨"assistant", t.assistantMsg, t.ta⟩] := by
  simp [turnMessages]

theorem turnMessages_length (ts : List Turn) :
    (turnMessages ts).length = 2 * ts.length := by
  induction ts with
  | nil => rfl
  | cons t ts ih =>
    show (turnMessages ([t] ++ ts)).length = 2 * (t :: ts).length
    rw [turnMessages_append]
    simp only [List.length_append, List.length_cons, ih, turnMessages_singleton]
    simp
    omega

/-- The closed form of a whole run of `append_turn` calls from an empty
transcript: the flattened sequence of turns with everything but the last
`MAX_PAIRS * 2` messages dropped. -/
theorem appendTurns_nil_eq (turns : List Turn) :
    appendTurns [] turns =
      (turnMessages turns).drop ((turnMessages turns).length - MAX_PAIRS * 2) := by
  have h20 : MAX_PAIRS * 2 = 20 := rfl
  induction turns using List.reverseRecOn with
  | nil => rfl
  | append_singleton ts t ih =>
    rw [appendTurns_concat, ih, turnMessages_append, turnMessages_singleton,
      appendTurn, h20]
    set L := turnMessages ts with hL
    set u : ChatMessage := ChatMessage.mk "user" t.userMsg t.tu with hu
    set a : ChatMessage := ChatMessage.mk "assistant" t.assistantMsg t.ta with ha
    set n := L.length with hn
    have hlenappend : (L ++ [u, a]).length = n + 2 := by
      simp [List.length_append, hn]
    rw [hlenappend]
    rcases lt_or_le (20 : Nat) n with hcase | hcase
    · -- n > 20: the previous transcript was already truncated to 20
      have hdlen : (L.drop (n - 20)).length = 20 := by
        rw [List.length_drop]
        omega
      have hlen2 : (L.drop (n - 20) ++ [u, a]).length = 22 := by
        rw [List.length_append, hdlen]
        rfl
      rw [hlen2, if_pos (by omega : (22 : Nat) > 20)]
      have h22 : (22 : Nat) - 20 = 2 := rfl
      rw [h22]
      rw [List.drop_append_of_le_length (by rw [hdlen]; omega : 2 ≤ (L.drop (n - 20)).length)]
      rw [List.drop_append_of_le_length (by omega : n + 2 - 20 ≤ L.length)]
      have hdd : (L.drop (n - 20)).drop 2 = L.drop (n + 2 - 20) := by
        rw [List.drop_drop]
        congr 1
        omega
      rw [hdd]
    · -- n ≤ 20: the previous transcript was the whole flattened list
      have h0 : n - 20 = 0 := by omega
      rw [h0, List.drop_zero, hlenappend]
      rcases lt_or_le (20 : Nat) (n + 2) with hc2 | hc2
      · rw [if_pos (by omega : n + 2 > 20)]
      · rw [if_neg (by omega : ¬(n + 2 > 20))]
        have h5 : n + 2 - 20 = 0 := by omega
        rw [h5, List.drop_zero]

/-! ## Claim C9 -/

/-- C9: from an empty transcript, any sequence of `append_turn` calls
leaves at most `MAX_PAIRS * 2` messages; 11 calls leave exactly 20
messages, namely the flattened message sequence with the oldest pair
(the first two messages) dropped — the 10 most recent pairs in original
order. -/
theorem append_turn_window_bound :
    (∀ turns : List Turn, (appendTurns [] turns).length ≤ MAX_PAIRS * 2) ∧
    (∀ turns : List Turn, turns.length = 11 →
      appendTurns [] turns = (turnMessages turns).drop 2 ∧
      (appendTurns [] turns).length = 20) := by
  constructor
  · intro turns
    rw [appendTurns_nil_eq, List.length_drop]
    omega
  · intro turns hlen
    have hTM : (turnMessages turns).length = 22 := by
      rw [turnMessages_length, hlen]
    have h2 : (turnMessages turns).length - MAX_PAIRS * 2 = 2 := by
      rw [hTM]
      norm_num [MAX_PAIRS]
    refine ⟨?_, ?_⟩
    · rw [appendTurns_nil_eq, h2]
    · rw [appendTurns_nil_eq, List.length_drop, hTM]
      norm_num [MAX_PAIRS]

/-- Witness for C9 at 11 concrete turns. -/
theorem append_turn_window_bound_witness :
    appendTurns [] (List.replicate 11 ⟨"q", "a", 0, 0⟩) =
      (turnMessages (List.replicate 11 ⟨"q", "a", 0, 0⟩)).drop 2 ∧
    (appendTurns [] (List.replicate 11 ⟨"q", "a", 0, 0⟩)).length = 20 :=
  append_turn_window_bound.2 (List.replicate 11 ⟨"q", "a", 0, 0⟩) (by simp)

/-! ## Orchestrator lemmas -/

/-- The breaker map after `invoke` records the attempt outcome. -/
def recordedBks (bks : List (String × CircuitBreaker)) (agentKey : String)
    (breaker : Option CircuitBreaker) (now : Rat) (success : Bool) :
    List (String × CircuitBreaker) :=
  match breaker with
  | none => bks
  | some br =>
    assocSet bks agentKey
      (if success then br.recordSuccess else br.recordFailure now)

theorem invoke_ok (o : Orchestrator) (bks : List (String × CircuitBreaker))
    (a : Agent) (agentKey : String) (breaker : Option CircuitBreaker)
    (now : Rat) (query : String) (ctx context : Ctx) (ir : IntentResult)
    (resp : AgentResponse) (h : a query ctx = .ok resp) :
    invoke o bks (some a) agentKey breaker now query ctx context ir =
      ⟨.ok resp ir, [(agentKey, ctx)],
        recordedBks bks agentKey breaker now resp.success⟩ := by
  cases breaker with
  | none => simp [invoke, h, recordedBks]
  | some br => simp [invoke, h, recordedBks]

theorem invoke_exn_fb_ok (o : Orchestrator) (bks : List (String × CircuitBreaker))
    (a : Agent) (agentKey : String) (breaker : Option CircuitBreaker)
    (now : Rat) (query : String) (ctx context : Ctx) (ir : IntentResult)
    (msg : String) (fb : Agent) (r : AgentResponse)
    (h : a query ctx = .exn msg)
    (hfb : regGet o.registry "general" = some fb)
    (hr : fb query context = .ok r) :
    invoke o bks (some a) agentKey breaker now query ctx context ir =
      ⟨.ok r ir, [(agentKey, ctx), ("general", context)],
        recordedBks bks agentKey breaker now false⟩ := by
  cases breaker with
  | none => simp [invoke, h, hfb, hr, recordedBks]
  | some br => simp [invoke, h, hfb, hr, recordedBks]

theorem invoke_exn_fb_exn (o : Orchestrator) (bks : List (String × CircuitBreaker))
    (a : Agent) (agentKey : String) (breaker : Option CircuitBreaker)
    (now : Rat) (query : String) (ctx context : Ctx) (ir : IntentResult)
    (msg : String) (fb : Agent) (m2 : String)
    (h : a query ctx = .exn msg)
    (hfb : regGet o.registry "general" = some fb)
    (hm : fb query context = .exn m2) :
    invoke o bks (some a) agentKey breaker now query ctx context ir =
      ⟨.uncaught m2, [(agentKey, ctx), ("general", context)],
        recordedBks bks agentKey breaker now false⟩ := by
  cases breaker with
  | none => simp [invoke, h, hfb, hm, recordedBks]
  | some br => simp [invoke, h, hfb, hm, recordedBks]

theorem invoke_exn_no_fb (o : Orchestrator) (bks : List (String × CircuitBreaker))
    (a : Agent) (agentKey : String) (breaker : Option CircuitBreaker)
    (now : Rat) (query : String) (ctx context : Ctx) (ir : IntentResult)
    (msg : String)
    (h : a query ctx = .exn msg)
    (hfb : regGet o.registry "general" = none) :
    invoke o bks (some a) agentKey breaker now query ctx context ir =
      ⟨.ok ⟨false, [], some msg, []⟩ ir, [(agentKey, ctx)],
        recordedBks bks agentKey breaker now false⟩ := by
  cases breaker with
  | none => simp [invoke, h, hfb, recordedBks]
  | some br => simp [invoke, h, hfb, recordedBks]

/-- `invoke` with a Python-`None` agent and a live fallback returning a
response: the `AttributeError` from `.process` on `None` is caught, only
the fallback runs. -/
theorem invoke_none_fb_ok (o : Orchestrator) (bks : List (String × CircuitBreaker))
    (agentKey : String) (breaker : Option CircuitBreaker) (now : Rat)
    (query : String) (ctx context : Ctx) (ir : IntentResult) (fb : Agent)
    (r : AgentResponse)
    (hfb : regGet o.registry "general" = some fb)
    (hr : fb query context = .ok r) :
    invoke o bks none agentKey breaker now query ctx context ir =
      ⟨.ok r ir, [("general", context)], recordedBks bks agentKey breaker now false⟩ := by
  cases breaker with
  | none => simp [invoke, hfb, hr, recordedBks]
  | some br => simp [invoke, hfb, hr, recordedBks]

/-- `invoke` with a Python-`None` agent and a fallback that raises. -/
theorem invoke_none_fb_exn (o : Orchestrator) (bks : List (String × CircuitBreaker))
    (agentKey : String) (breaker : Option CircuitBreaker) (now : Rat)
    (query : String) (ctx context : Ctx) (ir : IntentResult) (fb : Agent)
    (m2 : String)
    (hfb : regGet o.registry "general" = some fb)
    (hm : fb query context = .exn m2) :
    invoke o bks none agentKey breaker now query ctx context ir =
      ⟨.uncaught m2, [("general", context)], recordedBks bks agentKey breaker now false⟩ := by
  cases breaker with
  | none => simp [invoke, hfb, hm, recordedBks]
  | some br => simp [invoke, hfb, hm, recordedBks]

/-- `invoke` with a Python-`None` agent and no fallback: the synthesized
failure response carries the `AttributeError` message. -/
theorem invoke_none_no_fb (o : Orchestrator) (bks : List (String × CircuitBreaker))
    (agentKey : String) (breaker : Option CircuitBreaker) (now : Rat)
    (query : String) (ctx context : Ctx) (ir : IntentResult)
    (hfb : regGet o.registry "general" = none) :
    invoke o bks none agentKey breaker now query ctx context ir =
      ⟨.ok ⟨false, [], some "AttributeError: NoneType object has no attribute process", []⟩ ir,
        [], recordedBks bks agentKey breaker now false⟩ := by
  cases breaker with
  | none => simp [invoke, hfb, recordedBks]
  | some br => simp [invoke, hfb, recordedBks]

theorem resolve_agent_none (o : Orchestrator) (now : Rat) (agentKey : String)
    (h : regGet o.registry agentKey = none) :
    resolve o now agentKey = rerouteResolve o o.breakers := by
  simp [resolve, h]

theorem resolve_no_breaker (o : Orchestrator) (now : Rat) (agentKey : String)
    (a : Agent) (h : regGet o.registry agentKey = some a)
    (hbr : assocGet o.breakers agentKey = none) :
    resolve o now agentKey = .proceed agentKey (some a) none o.breakers := by
  simp [resolve, h, hbr]

theorem resolve_available (o : Orchestrator) (now : Rat) (agentKey : String)
    (a : Agent) (br : CircuitBreaker)
    (h : regGet o.registry agentKey = some a)
    (hbr : assocGet o.breakers agentKey = some br)
    (hav : (br.isAvailable now).1 = true) :
    resolve o now agentKey =
      .proceed agentKey (some a) (some (br.isAvailable now).2)
        (assocSet o.breakers agentKey (br.isAvailable now).2) := by
  simp [resolve, h, hbr, hav]

theorem resolve_unavailable (o : Orchestrator) (now : Rat) (agentKey : String)
    (a : Agent) (br : CircuitBreaker)
    (h : regGet o.registry agentKey = some a)
    (hbr : assocGet o.breakers agentKey = some br)
    (hav : (br.isAvailable now).1 = false) :
    resolve o now agentKey =
      rerouteResolve o (assocSet o.breakers agentKey (br.isAvailable now).2) := by
  simp [resolve, h, hbr, hav]

theorem rerouteResolve_eq (o : Orchestrator) (bks : List (String × CircuitBreaker))
    (gAgent : Option Agent) (gBr : CircuitBreaker)
    (hg : assocGet o.registry "general" = some gAgent)
    (hgbr : assocGet bks "general" = some gBr) :
    rerouteResolve o bks = .proceed "general" gAgent (some gBr) bks := by
  simp [rerouteResolve, hg, hgbr]

theorem handle_eq (o : Orchestrator) (now : Rat) (query : String) (context : Ctx) :
    handle o now query context =
      match resolve o now (dispatchKeyCtx context (o.classify query)).1 with
      | .keyError bks => ⟨.uncaught "KeyError: general", [], bks⟩
      | .proceed key agent breaker bks =>
        invoke o bks agent key breaker now query
          (dispatchKeyCtx context (o.classify query)).2 context (o.classify query) := by
  rfl

/-- `handle` under a known resolution. -/
theorem handle_of_resolve (o : Orchestrator) (now : Rat) (query : String)
    (context : Ctx) (key : String) (agent : Option Agent)
    (breaker : Option CircuitBreaker) (bks : List (String × CircuitBreaker))
    (hres : resolve o now (dispatchKeyCtx context (o.classify query)).1 =
      .proceed key agent breaker bks) :
    handle o now query context =
      invoke o bks agent key breaker now query
        (dispatchKeyCtx context (o.classify query)).2 context (o.classify query) := by
  rw [handle_eq, hres]

/-- `handle` when the reroute target "general" is missing from the
registry or the breaker map: the `KeyError` propagates. -/
theorem handle_of_keyError (o : Orchestrator) (now : Rat) (query : String)
    (context : Ctx) (bks : List (String × CircuitBreaker))
    (hres : resolve o now (dispatchKeyCtx context (o.classify query)).1 =
      .keyError bks) :
    handle o now query context = ⟨.uncaught "KeyError: general", [], bks⟩ := by
  rw [handle_eq, hres]

/-- Every normal return of `handle` carries exactly the intent result of
the classification performed at the start of the call. -/
theorem handle_ok_intent (o : Orchestrator) (now : Rat) (query : String)
    (context : Ctx) (resp : AgentResponse) (i : IntentResult)
    (h : (handle o now query context).outcome = .ok resp i) :
    i = o.classify query := by
  rw [handle_eq] at h
  rcases hres : resolve o now (dispatchKeyCtx context (o.classify query)).1 with
    ⟨key, agent, breaker, bks⟩ | ⟨bks⟩
  · rw [hres] at h
    cases agent with
    | none =>
      simp only [invoke] at h
      rcases hfb : regGet o.registry "general" with _ | fb
      · rw [hfb] at h
        simp only [HandleOutcome.ok.injEq] at h
        exact h.2.symm
      · rw [hfb] at h
        rcases hr : fb query context with r | m2
        · simp only [hr, HandleOutcome.ok.injEq] at h
          exact h.2.symm
        · simp only [hr] at h
          simp at h
    | some a =>
      simp only [invoke] at h
      rcases hA : a query (dispatchKeyCtx context (o.classify query)).2 with r | msg
      · rw [hA] at h
        simp only [HandleOutcome.ok.injEq] at h
        exact h.2.symm
      · rw [hA] at h
        rcases hfb : regGet o.registry "general" with _ | fb
        · rw [hfb] at h
          simp only [HandleOutcome.ok.injEq] at h
          exact h.2.symm
        · rw [hfb] at h
          rcases hr : fb query context with r | m2
          · simp only [hr, HandleOutcome.ok.injEq] at h
            exact h.2.symm
          · simp only [hr] at h
            simp at h
  · rw [hres] at h
    simp at h

/-- Whenever the `try` block runs with a non-`None` agent, the first
`process` invocation recorded is that agent's, with the enriched context. -/
theorem invoke_some_trace_head (o : Orchestrator)
    (bks : List (String × CircuitBreaker)) (a : Agent) (agentKey : String)
    (breaker : Option CircuitBreaker) (now : Rat) (query : String)
    (ctx context : Ctx) (ir : IntentResult) :
    (invoke o bks (some a) agentKey breaker now query ctx context ir).trace.head? =
      some (agentKey, ctx) := by
  rcases hA : a query ctx with r | msg
  · rw [invoke_ok o bks a agentKey breaker now query ctx context ir r hA]
    rfl
  · rcases hfb : regGet o.registry "general" with _ | fb
    · rw [invoke_exn_no_fb o bks a agentKey breaker now query ctx context ir msg hA hfb]
      rfl
    · rcases hr : fb query context with r | m2
      · rw [invoke_exn_fb_ok o bks a agentKey breaker now query ctx context ir
          msg fb r hA hfb hr]
        rfl
      · rw [invoke_exn_fb_exn o bks a agentKey breaker now query ctx context ir
          msg fb m2 hA hfb hr]
        rfl

/-- The resolution taken when the mapped capability is present and its
breaker (if any) reports available: no reroute. -/
theorem resolve_proceeds_of_available (o : Orchestrator) (now : Rat)
    (agentKey : String) (a : Agent)
    (ha : regGet o.registry agentKey = some a)
    (hav : ∀ br, assocGet o.breakers agentKey = some br →
      (br.isAvailable now).1 = true) :
    ∃ breaker bks, resolve o now agentKey = .proceed agentKey (some a) breaker bks := by
  rcases hbr : assocGet o.breakers agentKey with _ | br
  · exact ⟨none, o.breakers, resolve_no_breaker o now agentKey a ha hbr⟩
  · exact ⟨some (br.isAvailable now).2,
      assocSet o.breakers agentKey (br.isAvailable now).2,
      resolve_available o now agentKey a br ha hbr (hav br hbr)⟩

/-! ## Claim C2 -/

/-- C2 counterexample: the "review" capability returns
`success=False, error="boom"` without raising; `handle` returns that
response, with its error message, straight to the caller, while the
live "general" capability is never consulted — a capability-reported
failure is surfaced, so "only TotalFailure is surfaced" is false. -/
theorem total_failure_only_surfaced_cex :
    (handle oReportedFailure 0 "q" []).outcome =
      .ok ⟨false, [], some "boom", []⟩ (constClassifier .REVIEW "q") ∧
    (handle oReportedFailure 0 "q" []).trace.map Prod.fst = ["review"] ∧
    regGet oReportedFailure.registry "general" = some agentOkTrue :=
  ⟨rfl, rfl, rfl⟩

/-- C2 (amended): when the resolved capability is present and available,
`handle` returns the capability's own response unchanged — including
`success=false` with an error message; after a raised exception it
returns "general"'s response unchanged (or propagates "general"'s own
exception), and it synthesizes `success=false` with the exception
message only when "general" is absent. -/
theorem surfaced_failures_characterized (o : Orchestrator) (now : Rat)
    (query : String) (context : Ctx) (a : Agent)
    (ha : regGet o.registry (dispatchKeyCtx context (o.classify query)).1 = some a)
    (hav : ∀ br,
      assocGet o.breakers (dispatchKeyCtx context (o.classify query)).1 = some br →
      (br.isAvailable now).1 = true) :
    (∀ resp, a query (dispatchKeyCtx context (o.classify query)).2 = .ok resp →
      (handle o now query context).outcome = .ok resp (o.classify query)) ∧
    (∀ msg fb, a query (dispatchKeyCtx context (o.classify query)).2 = .exn msg →
      regGet o.registry "general" = some fb →
      (∀ r, fb query context = .ok r →
        (handle o now query context).outcome = .ok r (o.classify query)) ∧
      (∀ m2, fb query context = .exn m2 →
        (handle o now query context).outcome = .uncaught m2)) ∧
    (∀ msg, a query (dispatchKeyCtx context (o.classify query)).2 = .exn msg →
      regGet o.registry "general" = none →
      (handle o now query context).outcome =
        .ok ⟨false, [], some msg, []⟩ (o.classify query)) := by
  obtain ⟨breaker, bks, hres⟩ := resolve_proceeds_of_available o now
    (dispatchKeyCtx context (o.classify query)).1 a ha hav
  have hh := handle_of_resolve o now query context _ (some a) breaker bks hres
  refine ⟨?_, ?_, ?_⟩
  · intro resp hresp
    rw [hh, invoke_ok o bks a _ breaker now query _ context _ resp hresp]
  · intro msg fb hmsg hfb
    constructor
    · intro r hr
      rw [hh, invoke_exn_fb_ok o bks a _ breaker now query _ context _ msg fb r hmsg hfb hr]
    · intro m2 hm2
      rw [hh, invoke_exn_fb_exn o bks a _ breaker now query _ context _ msg fb m2 hmsg hfb hm2]
  · intro msg hmsg hfb
    rw [hh, invoke_exn_no_fb o bks a _ breaker now query _ context _ msg hmsg hfb]

/-- Witness for C2's amended theorem: a healthy "review" capability's
successful response is returned unchanged. -/
theorem surfaced_failures_characterized_witness :
    (handle oReviewOk 0 "q" []).outcome =
      .ok ⟨true, [], none, []⟩ (oReviewOk.classify "q") :=
  (surfaced_failures_characterized oReviewOk 0 "q" [] agentOkTrue rfl
    (fun br h => by
      have h' : some (CircuitBreaker.mk0 3 30) = some br := h
      injection h' with h''
      rw [← h'']
      rfl)).1 ⟨true, [], none, []⟩ rfl

/-! ## Claim C6 -/

/-- C6 counterexample: when the invoked capability is "general" itself
and it raises, the exception handler invokes "general" a second time
within the same request (and its second exception propagates), so "each
capability's process is invoked at most once per request" is false. -/
theorem no_retry_cex :
    (handle oGeneralRaises 0 "q" []).trace.map Prod.fst = ["general", "general"] ∧
    (handle oGeneralRaises 0 "q" []).outcome = .uncaught "kaboom" :=
  ⟨rfl, rfl⟩

/-- C6 (amended): within one `handle` call there are at most two
`process` invocations, and any second invocation is the "general"
fallback; hence every capability other than "general" is invoked at most
once per request, while "general" itself can be invoked twice (when the
first invocation was "general" and it raised). -/
theorem invocations_bounded (o : Orchestrator) (now : Rat) (query : String)
    (context : Ctx) :
    ((handle o now query context).trace.map Prod.fst = [] ∨
      (∃ k, (handle o now query context).trace.map Prod.fst = [k]) ∨
      (∃ k, (handle o now query context).trace.map Prod.fst = [k, "general"])) ∧
    (∀ k, k ≠ "general" →
      ((handle o now query context).trace.map Prod.fst).count k ≤ 1) := by
  have hshape : (handle o now query context).trace.map Prod.fst = [] ∨
      (∃ k, (handle o now query context).trace.map Prod.fst = [k]) ∨
      (∃ k, (handle o now query context).trace.map Prod.fst = [k, "general"]) := by
    rcases hres : resolve o now (dispatchKeyCtx context (o.classify query)).1 with
      ⟨key, agent, breaker, bks⟩ | ⟨bks⟩
    · rw [handle_of_resolve o now query context key agent breaker bks hres]
      cases agent with
      | none =>
        rcases hfb : regGet o.registry "general" with _ | fb
        · rw [invoke_none_no_fb o bks key breaker now query _ context _ hfb]
          left
          rfl
        · rcases hr : fb query context with r | m2
          · rw [invoke_none_fb_ok o bks key breaker now query _ context _ fb r hfb hr]
            right; left
            exact ⟨"general", rfl⟩
          · rw [invoke_none_fb_exn o bks key breaker now query _ context _ fb m2 hfb hr]
            right; left
            exact ⟨"general", rfl⟩
      | some a =>
        rcases hA : a query (dispatchKeyCtx context (o.classify query)).2 with r | msg
        · rw [invoke_ok o bks a key breaker now query _ context _ r hA]
          right; left
          exact ⟨key, rfl⟩
        · rcases hfb : regGet o.registry "general" with _ | fb
          · rw [invoke_exn_no_fb o bks a key breaker now query _ context _ msg hA hfb]
            right; left
            exact ⟨key, rfl⟩
          · rcases hr : fb query context with r | m2
            · rw [invoke_exn_fb_ok o bks a key breaker now query _ context _ msg fb r hA hfb hr]
              right; right
              exact ⟨key, rfl⟩
            · rw [invoke_exn_fb_exn o bks a key breaker now query _ context _ msg fb m2 hA hfb hr]
              right; right
              exact ⟨key, rfl⟩
    · rw [handle_of_keyError o now query context bks hres]
      left
      rfl
  refine ⟨hshape, ?_⟩
  intro k hk
  have hg : ¬("general" = k) := fun he => hk he.symm
  rcases hshape with h | ⟨k1, h⟩ | ⟨k1, h⟩ <;> rw [h]
  · simp
  · by_cases hkk : k1 = k <;> simp [List.count_cons, hkk]
  · by_cases hkk : k1 = k <;> simp [List.count_cons, hkk, hg]

/-- Witness for C6's amended theorem: a capability other than "general"
is counted at most once in a run where "general" raised twice. -/
theorem invocations_bounded_witness :
    ((handle oGeneralRaises 0 "q" []).trace.map Prod.fst).count "review" ≤ 1 :=
  (invocations_bounded oGeneralRaises 0 "q" []).2 "review" (by decide)

/-! ## Claim C7 -/

/-- C7 counterexample: a Comparison query with "recommendation"
registered as `None` is dispatched to "general", not to the capability
registered under "recommendation" — the claimed "always dispatches to
'recommendation'" fails when that capability is unavailable. -/
theorem comparison_dispatch_cex :
    (oComparisonNoRec.classify "q").intent = .COMPARISON ∧
    (handle oComparisonNoRec 0 "q" []).trace.map Prod.fst = ["general"] :=
  ⟨rfl, rfl⟩

/-- C7 (amended): when the classified intent is Comparison and the
"recommendation" capability is present with an available breaker,
`handle` dispatches to "recommendation", and the context passed to its
`process` has `compare_mode = true` (set whenever the intent is
Comparison, even for the reroute case). -/
theorem comparison_dispatches_to_recommendation (o : Orchestrator) (now : Rat)
    (query : String) (context : Ctx) (a : Agent) (br : CircuitBreaker)
    (hint : (o.classify query).intent = .COMPARISON)
    (ha : regGet o.registry "recommendation" = some a)
    (hbr : assocGet o.breakers "recommendation" = some br)
    (hav : (br.isAvailable now).1 = true) :
    (handle o now query context).trace.head? =
      some ("recommendation", (dispatchKeyCtx context (o.classify query)).2) ∧
    assocGet (dispatchKeyCtx context (o.classify query)).2 "compare_mode" =
      some (CtxVal.boolV true) := by
  have hkey : (dispatchKeyCtx context (o.classify query)).1 = "recommendation" := by
    simp [dispatchKeyCtx, hint, IntentType.value]
  have hctx : (dispatchKeyCtx context (o.classify query)).2 =
      assocSet (enrichCtx context (o.classify query)) "compare_mode"
        (CtxVal.boolV true) := by
    simp [dispatchKeyCtx, hint, IntentType.value]
  have hres := resolve_available o now "recommendation" a br ha hbr hav
  rw [← hkey] at hres
  have hh := handle_of_resolve o now query context _ (some a)
    (some (br.isAvailable now).2)
    (assocSet o.breakers (dispatchKeyCtx context (o.classify query)).1
      (br.isAvailable now).2) hres
  constructor
  · rw [hkey] at hh
    rw [hh, invoke_some_trace_head]
  · rw [hctx]
    exact assocGet_assocSet_self _ _ _

/-- Witness for C7's amended theorem on a live "recommendation"
capability. -/
theorem comparison_dispatches_to_recommendation_witness :
    (handle oComparisonRec 0 "q" []).trace.head? =
      some ("recommendation", (dispatchKeyCtx [] (oComparisonRec.classify "q")).2) ∧
    assocGet (dispatchKeyCtx [] (oComparisonRec.classify "q")).2 "compare_mode" =
      some (CtxVal.boolV true) :=
  comparison_dispatches_to_recommendation oComparisonRec 0 "q" [] agentOkTrue
    (CircuitBreaker.mk0 3 30) rfl rfl rfl rfl

/-! ## Claim C10 -/

/-- C10: when the invoked capability raises and "general" is present,
the fallback invocation of "general" receives the caller's original
context — not the enriched copy — so the `structured_hints` entry and
the `compare_mode` flag added during dispatch are absent from the
context the fallback sees whenever the caller's context lacked them. -/
theorem fallback_gets_original_context (o : Orchestrator) (now : Rat)
    (query : String) (context : Ctx) (a fb : Agent) (msg : String)
    (ha : regGet o.registry (dispatchKeyCtx context (o.classify query)).1 = some a)
    (hav : ∀ br,
      assocGet o.breakers (dispatchKeyCtx context (o.classify query)).1 = some br →
      (br.isAvailable now).1 = true)
    (hexn : a query (dispatchKeyCtx context (o.classify query)).2 = .exn msg)
    (hfb : regGet o.registry "general" = some fb) :
    (handle o now query context).trace =
      [((dispatchKeyCtx context (o.classify query)).1,
        (dispatchKeyCtx context (o.classify query)).2), ("general", context)] ∧
    (assocGet context "structured_hints" = none →
      assocGet ((handle o now query context).trace.getLastD ("", [])).2
        "structured_hints" = none) ∧
    (assocGet context "compare_mode" = none →
      assocGet ((handle o now query context).trace.getLastD ("", [])).2
        "compare_mode" = none) := by
  obtain ⟨breaker, bks, hres⟩ := resolve_proceeds_of_available o now
    (dispatchKeyCtx context (o.classify query)).1 a ha hav
  have hh := handle_of_resolve o now query context _ (some a) breaker bks hres
  have htrace : (handle o now query context).trace =
      [((dispatchKeyCtx context (o.classify query)).1,
        (dispatchKeyCtx context (o.classify query)).2), ("general", context)] := by
    rcases hr : fb query context with r | m2
    · rw [hh, invoke_exn_fb_ok o bks a _ breaker now query _ context _ msg fb r hexn hfb hr]
    · rw [hh, invoke_exn_fb_exn o bks a _ breaker now query _ context _ msg fb m2 hexn hfb hr]
  refine ⟨htrace, ?_, ?_⟩
  · intro habs
    rw [htrace]
    exact habs
  · intro habs
    rw [htrace]
    exact habs

/-- Witness for C10: "review" raises; the fallback sees the caller's
original one-entry context, which carries neither `structured_hints` nor
`compare_mode`. -/
theorem fallback_gets_original_context_witness :
    (handle oReviewRaises 0 "q" [("user_id", CtxVal.str "u")]).trace =
      [((dispatchKeyCtx [("user_id", CtxVal.str "u")] (oReviewRaises.classify "q")).1,
        (dispatchKeyCtx [("user_id", CtxVal.str "u")] (oReviewRaises.classify "q")).2),
       ("general", [("user_id", CtxVal.str "u")])] ∧
    (assocGet [("user_id", CtxVal.str "u")] "structured_hints" = none →
      assocGet ((handle oReviewRaises 0 "q"
          [("user_id", CtxVal.str "u")]).trace.getLastD ("", [])).2
        "structured_hints" = none) ∧
    (assocGet [("user_id", CtxVal.str "u")] "compare_mode" = none →
      assocGet ((handle oReviewRaises 0 "q"
          [("user_id", CtxVal.str "u")]).trace.getLastD ("", [])).2
        "compare_mode" = none) :=
  fallback_gets_original_context oReviewRaises 0 "q" [("user_id", CtxVal.str "u")]
    agentRaises agentOkTrue "kaboom" rfl
    (fun br h => by
      have h' : some (CircuitBreaker.mk0 3 30) = some br := h
      injection h' with h''
      rw [← h'']
      rfl)
    rfl rfl

/-! ## Claim C1 -/

/-- C1: when the capability mapped from the classified intent is absent
from the registry (Python `None` or missing key) or its breaker reports
unavailable, `handle` dispatches to "general" instead — the first
`process` invocation is "general"'s with the enriched context, the
response recorded lands on "general"'s breaker — and any normally
returned Intent is the originally classified one, not "general". -/
theorem reroute_to_general (o : Orchestrator) (now : Rat) (query : String)
    (context : Ctx) (g : Agent) (gbr : CircuitBreaker)
    (hg : assocGet o.registry "general" = some (some g))
    (hgbr : assocGet o.breakers "general" = some gbr)
    (htarget :
      regGet o.registry (dispatchKeyCtx context (o.classify query)).1 = none ∨
      ∃ br, assocGet o.breakers (dispatchKeyCtx context (o.classify query)).1 = some br ∧
        (br.isAvailable now).1 = false) :
    (handle o now query context).trace.head? =
      some ("general", (dispatchKeyCtx context (o.classify query)).2) ∧
    (∀ resp i, (handle o now query context).outcome = .ok resp i →
      i = o.classify query) ∧
    (∀ resp, g query (dispatchKeyCtx context (o.classify query)).2 = .ok resp →
      (handle o now query context).outcome = .ok resp (o.classify query) ∧
      (resp.success = true →
        ∃ gb, assocGet (handle o now query context).breakers "general" = some gb ∧
          gb.state = CircuitState.CLOSED ∧ gb.failures = 0)) := by
  have hproceed : ∃ gbr2 bks2,
      resolve o now (dispatchKeyCtx context (o.classify query)).1 =
        .proceed "general" (some g) (some gbr2) bks2 := by
    rcases hag : regGet o.registry (dispatchKeyCtx context (o.classify query)).1 with
      _ | a
    · refine ⟨gbr, o.breakers, ?_⟩
      rw [resolve_agent_none o now _ hag,
        rerouteResolve_eq o o.breakers (some g) gbr hg hgbr]
    · rcases htarget with hnone | ⟨br, hbr, hunav⟩
      · rw [hag] at hnone
        exact absurd hnone (by simp)
      · by_cases hkeyg : (dispatchKeyCtx context (o.classify query)).1 = "general"
        · refine ⟨(br.isAvailable now).2,
            assocSet o.breakers (dispatchKeyCtx context (o.classify query)).1
              (br.isAvailable now).2, ?_⟩
          rw [resolve_unavailable o now _ a br hag hbr hunav,
            rerouteResolve_eq o _ (some g) (br.isAvailable now).2 hg
              (by rw [hkeyg, assocGet_assocSet_self])]
        · refine ⟨gbr,
            assocSet o.breakers (dispatchKeyCtx context (o.classify query)).1
              (br.isAvailable now).2, ?_⟩
          rw [resolve_unavailable o now _ a br hag hbr hunav,
            rerouteResolve_eq o _ (some g) gbr hg
              (by rw [assocGet_assocSet_ne _ _ _ _
                (fun he => hkeyg he.symm)]; exact hgbr)]
  obtain ⟨gbr2, bks2, hres⟩ := hproceed
  have hh := handle_of_resolve o now query context "general" (some g)
    (some gbr2) bks2 hres
  refine ⟨?_, ?_, ?_⟩
  · rw [hh, invoke_some_trace_head]
  · intro resp i h
    exact handle_ok_intent o now query context resp i h
  · intro resp hresp
    have hinv := invoke_ok o bks2 g "general" (some gbr2) now query
      (dispatchKeyCtx context (o.classify query)).2 context (o.classify query)
      resp hresp
    constructor
    · rw [hh, hinv]
    · intro hsucc
      refine ⟨gbr2.recordSuccess, ?_, rfl, rfl⟩
      rw [hh, hinv]
      show assocGet (recordedBks bks2 "general" (some gbr2) now resp.success)
        "general" = some gbr2.recordSuccess
      rw [show recordedBks bks2 "general" (some gbr2) now resp.success =
          assocSet bks2 "general" gbr2.recordSuccess by
        simp [recordedBks, hsucc]]
      exact assocGet_assocSet_self _ _ _

/-- Witness for C1: "review" registered as `None`, rerouted to a healthy
"general". -/
theorem reroute_to_general_witness :
    (handle oReviewAbsent 0 "q" []).trace.head? =
      some ("general", (dispatchKeyCtx [] (oReviewAbsent.classify "q")).2) ∧
    (handle oReviewAbsent 0 "q" []).outcome =
      .ok ⟨true, [], none, []⟩ (oReviewAbsent.classify "q") :=
  ⟨(reroute_to_general oReviewAbsent 0 "q" [] agentOkTrue (CircuitBreaker.mk0 3 30)
      rfl rfl (Or.inl rfl)).1,
   ((reroute_to_general oReviewAbsent 0 "q" [] agentOkTrue (CircuitBreaker.mk0 3 30)
      rfl rfl (Or.inl rfl)).2.2 ⟨true, [], none, []⟩ rfl).1⟩

end SmartShop
